import Mathlib

/-!
Shallow embedding of the mutual-fund analyser's time-series investment
simulation engine (src/src/components/SipCalculator.tsx, src/src/App.tsx,
src/src/components/NavChart.tsx, src/src/components/FundDetails.tsx).

Modelling conventions:
* A NAV record is modelled after parsing: its DD-MM-YYYY date string becomes an
  integer timestamp `time : Int` (the value of `parseNavDate(d).getTime()`), and
  its string-encoded value becomes a rational `nav : Rat` (the value of
  `parseFloat(entry.nav)`).  JavaScript number arithmetic is modelled by exact
  rational arithmetic.
* Monthly stepping in the simulation loop works on absolute month indices
  `am = 12 * year + month0` with `month0 ∈ [0, 11]`; the loop of the source
  always uses day-of-month 1 for contribution dates, so the JS comparison
  `currentDate <= endDate` is equivalent to `am ≤ todayAM`.
* The conversion from a calendar date to a timestamp is abstracted as a
  parameter `toTime : Nat → Nat → Int` taking the absolute month index and the
  day of month; none of the verified properties depends on its concrete values.
-/

/-- A parsed NAV record: `time` is the parsed date's timestamp, `nav` the
parsed per-unit valuation. -/
structure Nav where
  time : Int
  nav : Rat
deriving DecidableEq

/-- Ascending-date ordering on records, used to state that a series is sorted
oldest-first (`sortedNav` in `App.tsx`). -/
def timeLe (a b : Nav) : Prop := a.time ≤ b.time

instance : DecidableRel timeLe := fun a b => Int.decLe a.time b.time

/-- Descending-date ordering on records: the order in which the data source
supplies the raw series (newest first). -/
def timeGe (a b : Nav) : Prop := b.time ≤ a.time

instance : DecidableRel timeGe := fun a b => Int.decLe b.time a.time

/-- One pass of the minimum-distance scan: the body of the `for` loop of
`findNearestNav` (SipCalculator.tsx lines 885-892).  The accumulator holds the
current `nearest` record together with `minDiff`; `none` models the initial
`nearest = null, minDiff = Infinity` state. -/
def nearestStep (t : Int) (acc : Option (Nav × Int)) (entry : Nav) : Option (Nav × Int) :=
  let diff := |entry.time - t|
  match acc with
  | none => some (entry, diff)
  | some (b, minDiff) => if diff < minDiff then some (entry, diff) else some (b, minDiff)

/-- `findNearestNav` of SipCalculator.tsx lines 881-895: exhaustive linear scan
for the record whose date is at minimum absolute distance from the target. -/
def findNearestNav (navData : List Nav) (t : Int) : Option Nav :=
  (navData.foldl (nearestStep t) none).map Prod.fst

/-- The loop of `findNearestNav` of App.tsx lines 174-196: same minimum-distance
update, but the scan breaks as soon as the entry just processed lies strictly
after the target date and a candidate exists. -/
def findNearestNavGo (t : Int) : Option (Nav × Int) → List Nav → Option Nav
  | acc, [] => acc.map Prod.fst
  | acc, e :: rest =>
    let acc' := nearestStep t acc e
    if e.time > t ∧ acc'.isSome = true then acc'.map Prod.fst
    else findNearestNavGo t acc' rest

/-- `findNearestNav` of App.tsx lines 174-196 (the early-exit variant taking an
ascending-sorted series). -/
def findNearestNavSorted (navData : List Nav) (t : Int) : Option Nav :=
  findNearestNavGo t none navData

/-- The "current valuation": `parseFloat(navData[0]?.nav || '0')`
(SipCalculator.tsx line 152; same access pattern at NavChart.tsx line 83 and
FundDetails.tsx lines 50-51). -/
def currentValuation (navData : List Nav) : Rat :=
  match navData.head? with
  | some e => e.nav
  | none => 0

-- ===== basic lemmas about the nearest-record scan =====

theorem nearestStep_isSome (t : Int) (acc : Option (Nav × Int)) (e : Nav) :
    (nearestStep t acc e).isSome = true := by
  unfold nearestStep
  match acc with
  | none => rfl
  | some (b, m) =>
    by_cases h : |e.time - t| < m <;> simp [h]

theorem nearestStep_snd_le (t : Int) (acc : Option (Nav × Int)) (e b : Nav) (m : Int)
    (h : nearestStep t acc e = some (b, m)) : m ≤ |e.time - t| := by
  unfold nearestStep at h
  match acc with
  | none =>
    simp only [Option.some.injEq, Prod.mk.injEq] at h
    omega
  | some (b₀, m₀) =>
    by_cases hlt : |e.time - t| < m₀ <;> simp only [hlt, if_true, if_false,
      Option.some.injEq, Prod.mk.injEq, reduceIte] at h <;> omega

/-- Folding the scan body over records that are all at distance at least the
stored minimum leaves the accumulator unchanged. -/
theorem foldl_nearestStep_const (t : Int) :
    ∀ (l : List Nav) (b : Nav) (m : Int), (∀ r ∈ l, m ≤ |r.time - t|) →
      l.foldl (nearestStep t) (some (b, m)) = some (b, m) := by
  intro l
  induction l with
  | nil => intro b m _; rfl
  | cons e rest ih =>
    intro b m h
    have he : m ≤ |e.time - t| := h e (List.mem_cons_self e rest)
    have hstep : nearestStep t (some (b, m)) e = some (b, m) := by
      unfold nearestStep
      simp [not_lt.mpr he]
    rw [List.foldl_cons, hstep]
    exact ih b m (fun r hr => h r (List.mem_cons_of_mem e hr))

/-- The exhaustive scan started from a candidate `b` returns the first record
(in scan order) at minimum distance; over an ascending-sorted suffix whose
elements are all dated at or after `b`, ties therefore go to the earlier
date. -/
theorem foldl_nearestStep_spec (t : Int) :
    ∀ (l : List Nav) (b : Nav), (∀ r ∈ l, b.time ≤ r.time) → List.Sorted timeLe l →
      ∃ c, l.foldl (nearestStep t) (some (b, |b.time - t|)) = some (c, |c.time - t|) ∧
        (c = b ∨ c ∈ l) ∧ |c.time - t| ≤ |b.time - t| ∧
        (c ≠ b → |c.time - t| < |b.time - t|) ∧
        (∀ r ∈ l, |c.time - t| ≤ |r.time - t|) ∧
        (∀ r ∈ l, |r.time - t| = |c.time - t| → c.time ≤ r.time) := by
  intro l
  induction l with
  | nil =>
    intro b _ _
    exact ⟨b, rfl, Or.inl rfl, le_refl _, fun h => absurd rfl h, by simp, by simp⟩
  | cons e rest ih =>
    intro b hb hs
    have hrest : List.Sorted timeLe rest := (List.sorted_cons.mp hs).2
    have herest : ∀ r ∈ rest, e.time ≤ r.time := fun r hr => (List.sorted_cons.mp hs).1 r hr
    have hbe : b.time ≤ e.time := hb e (List.mem_cons_self e rest)
    by_cases hlt : |e.time - t| < |b.time - t|
    · have hstep : nearestStep t (some (b, |b.time - t|)) e = some (e, |e.time - t|) := by
        unfold nearestStep; simp [hlt]
      rw [List.foldl_cons, hstep]
      obtain ⟨c, hc, hmem, hle, hstrict, hall, htie⟩ := ih e herest hrest
      refine ⟨c, hc, ?_, ?_, ?_, ?_, ?_⟩
      · rcases hmem with h | h
        · exact Or.inr (h ▸ List.mem_cons_self e rest)
        · exact Or.inr (List.mem_cons_of_mem e h)
      · exact le_of_lt (lt_of_le_of_lt hle hlt)
      · intro _; exact lt_of_le_of_lt hle hlt
      · intro r hr
        rcases List.mem_cons.mp hr with h | h
        · exact h ▸ hle
        · exact hall r h
      · intro r hr hreq
        rcases List.mem_cons.mp hr with h | h
        · rw [h] at hreq ⊢
          by_cases hce : c = e
          · exact hce ▸ le_refl _
          · exact absurd (hreq ▸ hstrict hce) (lt_irrefl _)
        · exact htie r h hreq
    · have hstep : nearestStep t (some (b, |b.time - t|)) e = some (b, |b.time - t|) := by
        unfold nearestStep; simp [hlt]
      rw [List.foldl_cons, hstep]
      obtain ⟨c, hc, hmem, hle, hstrict, hall, htie⟩ :=
        ih b (fun r hr => hb r (List.mem_cons_of_mem e hr)) hrest
      refine ⟨c, hc, ?_, hle, hstrict, ?_, ?_⟩
      · rcases hmem with h | h
        · exact Or.inl h
        · exact Or.inr (List.mem_cons_of_mem e h)
      · intro r hr
        rcases List.mem_cons.mp hr with h | h
        · rw [h]; exact le_trans hle (not_lt.mp hlt)
        · exact hall r h
      · intro r hr hreq
        rcases List.mem_cons.mp hr with h | h
        · rw [h] at hreq ⊢
          by_cases hcb : c = b
          · exact hcb ▸ hbe
          · have h1 : |c.time - t| < |b.time - t| := hstrict hcb
            have h2 : |b.time - t| ≤ |e.time - t| := not_lt.mp hlt
            exact absurd (hreq ▸ lt_of_lt_of_le h1 h2) (lt_irrefl _)
        · exact htie r h hreq

/-- Every possible result of folding the scan body is either the initial
accumulator or carries a record of the list. -/
theorem foldl_nearestStep_mem (t : Int) :
    ∀ (l : List Nav) (acc : Option (Nav × Int)) (c : Nav) (d : Int),
      l.foldl (nearestStep t) acc = some (c, d) → acc = some (c, d) ∨ c ∈ l := by
  intro l
  induction l with
  | nil => intro acc c d h; exact Or.inl h
  | cons e rest ih =>
    intro acc c d h
    rw [List.foldl_cons] at h
    rcases ih (nearestStep t acc e) c d h with h' | h'
    · unfold nearestStep at h'
      match acc with
      | none =>
        simp only [Option.some.injEq, Prod.mk.injEq] at h'
        exact Or.inr (h'.1 ▸ List.mem_cons_self e rest)
      | some (b, m) =>
        by_cases hlt : |e.time - t| < m
        · simp only [hlt, reduceIte, Option.some.injEq, Prod.mk.injEq] at h'
          exact Or.inr (h'.1 ▸ List.mem_cons_self e rest)
        · simp only [hlt, reduceIte] at h'
          exact Or.inl h'
    · exact Or.inr (List.mem_cons_of_mem e h')

theorem findNearestNav_mem {l : List Nav} {t : Int} {c : Nav}
    (h : findNearestNav l t = some c) : c ∈ l := by
  unfold findNearestNav at h
  rcases Option.map_eq_some'.mp h with ⟨⟨c', d⟩, hfold, hfst⟩
  rcases foldl_nearestStep_mem t l none c' d hfold with h' | h'
  · exact absurd h' (by simp)
  · exact hfst ▸ h'

theorem foldl_nearestStep_ne_none (t : Int) :
    ∀ (l : List Nav) (p : Nav × Int), l.foldl (nearestStep t) (some p) ≠ none := by
  intro l
  induction l with
  | nil => intro p h; exact Option.noConfusion h
  | cons e rest ih =>
    intro p
    rw [List.foldl_cons]
    have : ∃ q, nearestStep t (some p) e = some q := by
      cases h : nearestStep t (some p) e with
      | none => exact absurd (h ▸ nearestStep_isSome t (some p) e) (by simp)
      | some q => exact ⟨q, rfl⟩
    rcases this with ⟨q, hq⟩
    rw [hq]
    exact ih q

theorem findNearestNav_isSome (l : List Nav) (t : Int) (h : l ≠ []) :
    ∃ c, findNearestNav l t = some c := by
  match l with
  | [] => exact absurd rfl h
  | e :: rest =>
    unfold findNearestNav
    rw [List.foldl_cons]
    have hstep : nearestStep t none e = some (e, |e.time - t|) := rfl
    rw [hstep]
    cases hfold : rest.foldl (nearestStep t) (some (e, |e.time - t|)) with
    | none => exact absurd hfold (foldl_nearestStep_ne_none t rest _)
    | some p => exact ⟨p.1, rfl⟩

/-- Over an ascending-sorted list the early-exit scan agrees with the
exhaustive fold from any accumulator state. -/
theorem findNearestNavGo_eq (t : Int) :
    ∀ (l : List Nav), List.Sorted timeLe l → ∀ (acc : Option (Nav × Int)),
      findNearestNavGo t acc l = (l.foldl (nearestStep t) acc).map Prod.fst := by
  intro l
  induction l with
  | nil => intro _ acc; rfl
  | cons e rest ih =>
    intro hs acc
    have hrest : List.Sorted timeLe rest := (List.sorted_cons.mp hs).2
    have herest : ∀ r ∈ rest, e.time ≤ r.time := fun r hr => (List.sorted_cons.mp hs).1 r hr
    unfold findNearestNavGo
    by_cases hbr : e.time > t ∧ (nearestStep t acc e).isSome = true
    · rw [if_pos hbr]
      rw [List.foldl_cons]
      cases hacc : nearestStep t acc e with
      | none => exact absurd (hacc ▸ nearestStep_isSome t acc e) (by simp)
      | some p =>
        obtain ⟨b, m⟩ := p
        have hm : m ≤ |e.time - t| := nearestStep_snd_le t acc e b m hacc
        have hconst : rest.foldl (nearestStep t) (some (b, m)) = some (b, m) := by
          refine foldl_nearestStep_const t rest b m (fun r hr => ?_)
          have h1 : e.time - t ≤ r.time - t := by
            have := herest r hr; omega
          have h2 : |e.time - t| = e.time - t := abs_of_pos (by omega)
          have h3 : |e.time - t| ≤ |r.time - t| := by
            rw [h2]; exact le_trans h1 (le_abs_self _)
          exact le_trans hm h3
        rw [hconst]
    · rw [if_neg hbr]
      rw [List.foldl_cons]
      exact ih hrest (nearestStep t acc e)

/-- Over an ascending-sorted non-empty list, the exhaustive scan returns a
record of the list at minimum absolute date distance, and every record at the
same distance is dated no earlier. -/
theorem findNearestNav_spec (l : List Nav) (t : Int)
    (hs : List.Sorted timeLe l) (hne : l ≠ []) :
    ∃ c, findNearestNav l t = some c ∧ c ∈ l ∧
      (∀ r ∈ l, |c.time - t| ≤ |r.time - t|) ∧
      (∀ r ∈ l, |r.time - t| = |c.time - t| → c.time ≤ r.time) := by
  match l with
  | [] => exact absurd rfl hne
  | e :: rest =>
    have hrest : List.Sorted timeLe rest := (List.sorted_cons.mp hs).2
    have herest : ∀ r ∈ rest, e.time ≤ r.time := fun r hr => (List.sorted_cons.mp hs).1 r hr
    obtain ⟨c, hc, hmem, hle, hstrict, hall, htie⟩ := foldl_nearestStep_spec t rest e herest hrest
    refine ⟨c, ?_, ?_, ?_, ?_⟩
    · unfold findNearestNav
      rw [List.foldl_cons]
      have hstep : nearestStep t none e = some (e, |e.time - t|) := rfl
      rw [hstep, hc]; rfl
    · rcases hmem with h | h
      · exact h ▸ List.mem_cons_self e rest
      · exact List.mem_cons_of_mem e h
    · intro r hr
      rcases List.mem_cons.mp hr with h | h
      · rw [h]; exact hle
      · exact hall r h
    · intro r hr hreq
      rcases List.mem_cons.mp hr with h | h
      · rw [h] at hreq ⊢
        by_cases hce : c = e
        · exact hce ▸ le_refl _
        · exact absurd (hreq ▸ hstrict hce) (lt_irrefl _)
      · exact htie r h hreq

-- ===== the Past Analysis simulation engine (SipCalculator.tsx lines 146-307) =====

/-- The three investment modes of the calculator. -/
inductive InvestmentType where
  | sip
  | stepup
  | onetime
deriving DecidableEq

/-- Per-calendar-year accumulator of the `yearlyData` map: `{ invested, units }`. -/
structure YearAgg where
  invested : Rat
  units : Rat
deriving DecidableEq

/-- Running state of the month-stepping loop (SipCalculator.tsx lines 156-194). -/
structure SimState where
  totalUnits : Rat
  totalInvested : Rat
  currentAmount : Rat
  yearCounter : Nat
  yearlyData : List (Nat × YearAgg)
deriving DecidableEq

/-- One row of the year-wise breakdown table (`YearlyBreakdown`,
SipCalculator.tsx lines 133-143). -/
structure YearRow where
  year : Nat
  invested : Rat
  cumulativeInvested : Rat
  units : Rat
  cumulativeUnits : Rat
  value : Rat
  returns : Rat
  returnsPercent : Rat
  endYearNav : Rat
deriving DecidableEq

/-- The simulation result record returned by the `result` memo of
`PastAnalysis` (SipCalculator.tsx lines 239-248 and 294-305). -/
structure SimResult where
  totalInvested : Rat
  currentValue : Rat
  totalUnits : Rat
  returns : Rat
  returnsPercentage : Rat
  isProfit : Bool
  yearlyBreakdown : List YearRow
deriving DecidableEq

/-- `yearlyData.set` semantics: add to the entry of year `y`, creating it at
the end on first touch (SipCalculator.tsx lines 186-191; JS `Map` keeps
insertion order and unique keys). -/
def addToYear : List (Nat × YearAgg) → Nat → Rat → Rat → List (Nat × YearAgg)
  | [], y, inv, u => [(y, ⟨inv, u⟩)]
  | p :: rest, y, inv, u =>
    if p.1 = y then (p.1, ⟨p.2.invested + inv, p.2.units + u⟩) :: rest
    else p :: addToYear rest y inv u

/-- `yearlyData.get(yr)!`: look up a year's accumulator (defaulting to zero,
which the source never hits because it only reads keys it has set). -/
def lookupYear (m : List (Nat × YearAgg)) (y : Nat) : YearAgg :=
  ((m.find? (fun p => p.1 == y)).map Prod.snd).getD ⟨0, 0⟩

/-- The step-up amount update of SipCalculator.tsx lines 169-176, returning the
contribution amount used this month and the new `yearCounter`.  For the plain
SIP mode the block is skipped and the amount is unchanged. -/
def stepAmount (itype : InvestmentType) (amount stepUpPercent : Rat) (startYear : Nat)
    (st : SimState) (am : Nat) : Rat × Nat :=
  if itype = InvestmentType.stepup then
    let yearsDiff := am / 12 - startYear
    if yearsDiff > st.yearCounter then
      (amount * (1 + stepUpPercent / 100) ^ yearsDiff, yearsDiff)
    else (st.currentAmount, st.yearCounter)
  else (st.currentAmount, st.yearCounter)

/-- One iteration of the `while (currentDate <= endDate)` loop
(SipCalculator.tsx lines 166-194), at absolute month index `am`. -/
def simStep (itype : InvestmentType) (amount stepUpPercent : Rat) (startYear : Nat)
    (navData : List Nav) (toTime : Nat → Nat → Int) (st : SimState) (am : Nat) : SimState :=
  let currentYear := am / 12
  let ca := (stepAmount itype amount stepUpPercent startYear st am).1
  let yc := (stepAmount itype amount stepUpPercent startYear st am).2
  match findNearestNav navData (toTime am 1) with
  | some entry =>
    let unitsBought := ca / entry.nav
    { totalUnits := st.totalUnits + unitsBought
      totalInvested := st.totalInvested + ca
      currentAmount := ca
      yearCounter := yc
      yearlyData := addToYear st.yearlyData currentYear ca unitsBought }
  | none => { st with currentAmount := ca, yearCounter := yc }

/-- State of the loop just before processing month `am`, i.e. after all months
in `[startAM, am)`. -/
def prefixState (itype : InvestmentType) (amount stepUpPercent : Rat) (startAM : Nat)
    (navData : List Nav) (toTime : Nat → Nat → Int) (am : Nat) : SimState :=
  (List.range' startAM (am - startAM)).foldl
    (simStep itype amount stepUpPercent (startAM / 12) navData toTime)
    { totalUnits := 0, totalInvested := 0, currentAmount := amount,
      yearCounter := 0, yearlyData := [] }

/-- The whole month loop: months `startAM, startAM+1, …, todayAM` (the source's
`while (currentDate <= endDate)` with day-of-month 1). -/
def runSchedule (itype : InvestmentType) (amount stepUpPercent : Rat)
    (startAM todayAM : Nat) (navData : List Nav) (toTime : Nat → Nat → Int) : SimState :=
  prefixState itype amount stepUpPercent startAM navData toTime (todayAM + 1)

/-- The contribution amount the loop uses at month `am` (the value of
`currentAmount` after the step-up block of that iteration). -/
def amountUsedAt (itype : InvestmentType) (amount stepUpPercent : Rat) (startAM : Nat)
    (navData : List Nav) (toTime : Nat → Nat → Int) (am : Nat) : Rat :=
  (stepAmount itype amount stepUpPercent (startAM / 12)
    (prefixState itype amount stepUpPercent startAM navData toTime am) am).1

/-- Year-end valuation used for a breakdown slice: nearest record to Dec 31 of
`yr` for past years, the current valuation for the current year
(SipCalculator.tsx lines 212-220 and 267-275). -/
def endYearNavFor (navData : List Nav) (toTime : Nat → Nat → Int) (currentNav : Rat)
    (nowYear yr : Nat) : Rat :=
  if yr < nowYear then
    match findNearestNav navData (toTime (12 * yr + 11) 31) with
    | some e => e.nav
    | none => currentNav
  else currentNav

/-- The breakdown-building loop over the sorted years
(SipCalculator.tsx lines 200-237), carrying the cumulative totals. -/
def buildRows (navData : List Nav) (toTime : Nat → Nat → Int) (currentNav : Rat)
    (nowYear : Nat) (yd : List (Nat × YearAgg)) : Rat → Rat → List Nat → List YearRow
  | _, _, [] => []
  | cumInv, cumUnits, yr :: rest =>
    let agg := lookupYear yd yr
    let ci := cumInv + agg.invested
    let cu := cumUnits + agg.units
    let eyn := endYearNavFor navData toTime currentNav nowYear yr
    let value := cu * eyn
    let rets := value - ci
    let retsP := if ci > 0 then rets / ci * 100 else 0
    { year := yr, invested := agg.invested, cumulativeInvested := ci,
      units := agg.units, cumulativeUnits := cu, value := value, returns := rets,
      returnsPercent := retsP, endYearNav := eyn }
      :: buildRows navData toTime currentNav nowYear yd ci cu rest

/-- The schedule-mode (`sip` / `stepup`) branch of the `result` memo
(SipCalculator.tsx lines 154-248). -/
def scheduleResult (itype : InvestmentType) (amount stepUpPercent : Rat)
    (startAM todayAM : Nat) (navData : List Nav) (toTime : Nat → Nat → Int) : SimResult :=
  let currentNav := currentValuation navData
  let st := runSchedule itype amount stepUpPercent startAM todayAM navData toTime
  let currentValue := st.totalUnits * currentNav
  let returns := currentValue - st.totalInvested
  let sortedYears := List.insertionSort (· ≤ ·) (st.yearlyData.map Prod.fst)
  { totalInvested := st.totalInvested
    currentValue := currentValue
    totalUnits := st.totalUnits
    returns := returns
    returnsPercentage := if st.totalInvested > 0 then returns / st.totalInvested * 100 else 0
    isProfit := decide (returns ≥ 0)
    yearlyBreakdown :=
      buildRows navData toTime currentNav (todayAM / 12) st.yearlyData 0 0 sortedYears }

/-- The one-time-investment branch of the `result` memo
(SipCalculator.tsx lines 249-306). -/
def lumpResult (amount : Rat) (startAM todayAM : Nat) (navData : List Nav)
    (toTime : Nat → Nat → Int) : Option SimResult :=
  match findNearestNav navData (toTime startAM 1) with
  | none => none
  | some purchase =>
    let currentNav := currentValuation navData
    let units := amount / purchase.nav
    let currentValue := units * currentNav
    let returns := currentValue - amount
    let startYear := startAM / 12
    let endYear := todayAM / 12
    let rows := (List.range' startYear (endYear + 1 - startYear)).map (fun yr =>
      let eyn := endYearNavFor navData toTime currentNav (todayAM / 12) yr
      let yearValue := units * eyn
      let yearReturns := yearValue - amount
      ({ year := yr
         invested := if yr = startYear then amount else 0
         cumulativeInvested := amount
         units := if yr = startYear then units else 0
         cumulativeUnits := units
         value := yearValue
         returns := yearReturns
         returnsPercent := yearReturns / amount * 100
         endYearNav := eyn } : YearRow))
    some { totalInvested := amount
           currentValue := currentValue
           totalUnits := units
           returns := returns
           returnsPercentage := returns / amount * 100
           isProfit := decide (returns ≥ 0)
           yearlyBreakdown := rows }

/-- The whole `result` memo of `PastAnalysis` (SipCalculator.tsx lines
146-307), including its input guard `!amount || !navData.length → null`.  The
start month is always a selected `(year, month)` pair, given here as an
absolute month index. -/
def pastAnalysisResult (itype : InvestmentType) (amount stepUpPercent : Rat)
    (startAM todayAM : Nat) (navData : List Nav) (toTime : Nat → Nat → Int) :
    Option SimResult :=
  if amount = 0 ∨ navData = [] then none
  else
    match itype with
    | InvestmentType.onetime => lumpResult amount startAM todayAM navData toTime
    | _ => some (scheduleResult itype amount stepUpPercent startAM todayAM navData toTime)

-- ===== the Future Projection calculator (SipCalculator.tsx lines 594-659) =====

/-- `ProjectionResult`: pure numeric output of the future-projection formulas. -/
structure ProjResult where
  totalInvested : Rat
  futureValue : Rat
  returns : Rat
  returnsPercentage : Rat
  isProfit : Bool
deriving DecidableEq

/-- Regular SIP projection (SipCalculator.tsx lines 600-613):
`FV = P × ((1 + r)^n - 1) / r × (1 + r)` with the monthly rate `r` and
`n = years × 12` months. -/
def sipProjection (amount : Rat) (years : Nat) (expectedReturn : Rat) : ProjResult :=
  let monthlyRate := expectedReturn / 100 / 12
  let months := years * 12
  let futureValue :=
    amount * (((1 + monthlyRate) ^ months - 1) / monthlyRate) * (1 + monthlyRate)
  let totalInvested := amount * (months : Rat)
  let returns := futureValue - totalInvested
  { totalInvested := totalInvested
    futureValue := futureValue
    returns := returns
    returnsPercentage := returns / totalInvested * 100
    isProfit := decide (returns ≥ 0) }

/-- Loop state of the step-up projection: running invested total, running
future value and the current yearly contribution amount. -/
structure StepUpSt where
  totalInvested : Rat
  futureValue : Rat
  currentAmount : Rat
deriving DecidableEq

/-- The inner month loop of the step-up projection (SipCalculator.tsx lines
624-629): each of the 12 contributions of the year compounds for
`monthsRemaining - month` months. -/
def stepUpMonth (r : Rat) (monthsRemaining : Nat) (st : StepUpSt) : StepUpSt :=
  (List.range 12).foldl (fun s month =>
    { s with
      totalInvested := s.totalInvested + s.currentAmount
      futureValue := s.futureValue + s.currentAmount * (1 + r) ^ (monthsRemaining - month) }) st

/-- One iteration of the outer year loop (SipCalculator.tsx lines 620-633):
run the 12 months, then grow the contribution by the step-up factor. -/
def stepUpYear (r su : Rat) (years : Nat) (st : StepUpSt) (year : Nat) : StepUpSt :=
  let st' := stepUpMonth r ((years - year) * 12) st
  { st' with currentAmount := st'.currentAmount * (1 + su / 100) }

/-- The whole step-up accumulation loop (SipCalculator.tsx lines 616-633). -/
def stepUpRun (amount : Rat) (years : Nat) (r su : Rat) : StepUpSt :=
  (List.range years).foldl (stepUpYear r su years) ⟨0, 0, amount⟩

/-- Step-up SIP projection (SipCalculator.tsx lines 614-644). -/
def stepUpProjection (amount : Rat) (years : Nat) (expectedReturn stepUpPercent : Rat) :
    ProjResult :=
  let monthlyRate := expectedReturn / 100 / 12
  let st := stepUpRun amount years monthlyRate stepUpPercent
  let returns := st.futureValue - st.totalInvested
  { totalInvested := st.totalInvested
    futureValue := st.futureValue
    returns := returns
    returnsPercentage := returns / st.totalInvested * 100
    isProfit := decide (returns ≥ 0) }

/-- Lump-sum projection (SipCalculator.tsx lines 645-658):
`FV = P × (1 + r)^n` with the monthly rate `r` and `n = years × 12`. -/
def lumpSumProjection (amount : Rat) (years : Nat) (expectedReturn : Rat) : ProjResult :=
  let monthlyRate := expectedReturn / 100 / 12
  let months := years * 12
  let futureValue := amount * (1 + monthlyRate) ^ months
  let returns := futureValue - amount
  { totalInvested := amount
    futureValue := futureValue
    returns := returns
    returnsPercentage := returns / amount * 100
    isProfit := decide (returns ≥ 0) }

/-- The `result` memo of `FutureProjection` (SipCalculator.tsx lines 594-659),
including its guard `!amount || !years || !expectedReturn → null`. -/
def futureProjectionResult (itype : InvestmentType) (amount : Rat) (years : Nat)
    (expectedReturn stepUpPercent : Rat) : Option ProjResult :=
  if amount = 0 ∨ years = 0 ∨ expectedReturn = 0 then none
  else
    match itype with
    | InvestmentType.sip => some (sipProjection amount years expectedReturn)
    | InvestmentType.stepup =>
      some (stepUpProjection amount years expectedReturn stepUpPercent)
    | InvestmentType.onetime => some (lumpSumProjection amount years expectedReturn)

-- ===== the trailing-return analyzer (NavChart.tsx lines 76-120) =====

/-- A period-return entry: `{ change, isPositive }`. -/
structure PeriodReturn where
  change : Rat
  isPositive : Bool
deriving DecidableEq

/-- The `ALL` branch of the `periodReturns` memo (NavChart.tsx lines 81-116):
latest = `parseFloat(data[0].nav)`, start = the last element of the supplied
series, guarded by `startNav > 0`. -/
def periodReturnAll (data : List Nav) : Option PeriodReturn :=
  match data with
  | [] => none
  | d0 :: rest =>
    match (d0 :: rest).getLast? with
    | none => none
    | some oldest =>
      if 0 < oldest.nav then
        some { change := (d0.nav - oldest.nav) / oldest.nav * 100
               isPositive := decide ((d0.nav - oldest.nav) / oldest.nav * 100 ≥ 0) }
      else none

-- ===== invariants of the yearly-data map =====

theorem addToYear_map_fst (y : Nat) (inv u : Rat) :
    ∀ (m : List (Nat × YearAgg)),
      (addToYear m y inv u).map Prod.fst =
        (if y ∈ m.map Prod.fst then m.map Prod.fst else m.map Prod.fst ++ [y]) := by
  intro m
  induction m with
  | nil => simp [addToYear]
  | cons p rest ih =>
    by_cases hp : p.1 = y
    · simp [addToYear, hp]
    · simp only [addToYear, hp, if_false, List.map_cons, reduceIte, ih]
      have hne : ¬(y = p.1) := fun h => hp h.symm
      by_cases hmem : y ∈ rest.map Prod.fst
      · simp [hmem, hne]
      · simp [hmem, hne]

theorem addToYear_keys_nodup (y : Nat) (inv u : Rat) (m : List (Nat × YearAgg))
    (h : (m.map Prod.fst).Nodup) : ((addToYear m y inv u).map Prod.fst).Nodup := by
  rw [addToYear_map_fst]
  by_cases hmem : y ∈ m.map Prod.fst
  · simpa [hmem] using h
  · simp only [hmem, if_false, reduceIte]
    simp [List.nodup_append, h, hmem]

theorem addToYear_sum_invested (y : Nat) (inv u : Rat) :
    ∀ (m : List (Nat × YearAgg)),
      ((addToYear m y inv u).map (fun p => p.2.invested)).sum =
        (m.map (fun p => p.2.invested)).sum + inv := by
  intro m
  induction m with
  | nil => simp [addToYear]
  | cons p rest ih =>
    by_cases hp : p.1 = y
    · simp only [addToYear, hp, if_true, List.map_cons, List.sum_cons, reduceIte]
      ring
    · simp only [addToYear, hp, if_false, List.map_cons, List.sum_cons, reduceIte, ih]
      ring

theorem addToYear_nonneg (y : Nat) (inv u : Rat) (hi : 0 ≤ inv) (hu : 0 ≤ u) :
    ∀ (m : List (Nat × YearAgg)), (∀ p ∈ m, 0 ≤ p.2.invested ∧ 0 ≤ p.2.units) →
      ∀ p ∈ addToYear m y inv u, 0 ≤ p.2.invested ∧ 0 ≤ p.2.units := by
  intro m
  induction m with
  | nil =>
    intro _ p hp
    simp only [addToYear, List.mem_singleton] at hp
    subst hp
    exact ⟨hi, hu⟩
  | cons q rest ih =>
    intro h p hp
    by_cases hq : q.1 = y
    · simp only [addToYear, hq, if_true, List.mem_cons, reduceIte] at hp
      rcases hp with hp | hp
      · subst hp
        have := h q (List.mem_cons_self q rest)
        constructor
        · exact add_nonneg this.1 hi
        · exact add_nonneg this.2 hu
      · exact h p (List.mem_cons_of_mem q hp)
    · simp only [addToYear, hq, if_false, List.mem_cons, reduceIte] at hp
      rcases hp with hp | hp
      · subst hp; exact h p (List.mem_cons_self p rest)
      · exact ih (fun q' hq' => h q' (List.mem_cons_of_mem q hq')) p hp

theorem lookupYear_nonneg (m : List (Nat × YearAgg)) (y : Nat)
    (h : ∀ p ∈ m, 0 ≤ p.2.invested ∧ 0 ≤ p.2.units) :
    0 ≤ (lookupYear m y).invested ∧ 0 ≤ (lookupYear m y).units := by
  unfold lookupYear
  cases hf : m.find? (fun p => p.1 == y) with
  | none => simp
  | some p =>
    have := h p (List.mem_of_find?_eq_some hf)
    simpa using this

/-- Summing a function of the looked-up aggregates over the (duplicate-free)
key list equals summing it over the entries themselves. -/
theorem sum_lookup_invested :
    ∀ (m : List (Nat × YearAgg)), (m.map Prod.fst).Nodup →
      ((m.map Prod.fst).map (fun y => (lookupYear m y).invested)).sum =
        (m.map (fun p => p.2.invested)).sum := by
  intro m
  induction m with
  | nil => simp
  | cons p rest ih =>
    intro hn
    have hn' : (rest.map Prod.fst).Nodup := (List.nodup_cons.mp hn).2
    have hnot : p.1 ∉ rest.map Prod.fst := (List.nodup_cons.mp hn).1
    simp only [List.map_cons, List.sum_cons]
    have hhead : lookupYear (p :: rest) p.1 = p.2 := by
      unfold lookupYear
      rw [List.find?_cons_of_pos _ (by simp)]
      rfl
    have htail : (rest.map Prod.fst).map (fun y => (lookupYear (p :: rest) y).invested) =
        (rest.map Prod.fst).map (fun y => (lookupYear rest y).invested) := by
      refine List.map_congr_left (fun y hy => ?_)
      have hne : p.1 ≠ y := fun h => hnot (h ▸ hy)
      unfold lookupYear
      rw [List.find?_cons_of_neg _ (by simp [hne])]
    rw [hhead, htail, ih hn']

/-- Loop invariant of the month-stepping simulation state. -/
structure SimInv (navData : List Nav) (st : SimState) : Prop where
  sum_eq : st.totalInvested = (st.yearlyData.map (fun p => p.2.invested)).sum
  entries_nonneg : ∀ p ∈ st.yearlyData, 0 ≤ p.2.invested ∧ 0 ≤ p.2.units
  amount_nonneg : 0 ≤ st.currentAmount
  keys_nodup : (st.yearlyData.map Prod.fst).Nodup

theorem stepAmount_nonneg (itype : InvestmentType) (amount s : Rat) (sy : Nat)
    (st : SimState) (am : Nat) (ha : 0 ≤ amount) (hs : 0 ≤ s)
    (hst : 0 ≤ st.currentAmount) : 0 ≤ (stepAmount itype amount s sy st am).1 := by
  unfold stepAmount
  by_cases hi : itype = InvestmentType.stepup
  · simp only [hi, if_true, reduceIte]
    by_cases hgt : am / 12 - sy > st.yearCounter
    · simp only [hgt, if_true, reduceIte]
      have hf : (0 : Rat) ≤ 1 + s / 100 := by positivity
      exact mul_nonneg ha (pow_nonneg hf _)
    · simp only [hgt, if_false, reduceIte]; exact hst
  · simp only [hi, if_false, reduceIte]; exact hst

theorem simStep_fields (itype : InvestmentType) (amount s : Rat) (sy : Nat)
    (navData : List Nav) (toTime : Nat → Nat → Int) (st : SimState) (am : Nat) :
    (simStep itype amount s sy navData toTime st am).currentAmount =
        (stepAmount itype amount s sy st am).1 ∧
      (simStep itype amount s sy navData toTime st am).yearCounter =
        (stepAmount itype amount s sy st am).2 := by
  unfold simStep
  cases h : findNearestNav navData (toTime am 1) <;> simp [h]

theorem simStep_inv (itype : InvestmentType) (amount s : Rat)
    (navData : List Nav) (toTime : Nat → Nat → Int) (sy : Nat) (st : SimState) (am : Nat)
    (ha : 0 ≤ amount) (hs : 0 ≤ s) (hnav : ∀ e ∈ navData, 0 < e.nav)
    (hst : SimInv navData st) : SimInv navData (simStep itype amount s sy navData toTime st am) := by
  have hca : 0 ≤ (stepAmount itype amount s sy st am).1 :=
    stepAmount_nonneg itype amount s sy st am ha hs hst.amount_nonneg
  unfold simStep
  cases h : findNearestNav navData (toTime am 1) with
  | none =>
    exact ⟨hst.sum_eq, hst.entries_nonneg, hca, hst.keys_nodup⟩
  | some entry =>
    have hmem : entry ∈ navData := findNearestNav_mem h
    have hnavpos : 0 < entry.nav := hnav entry hmem
    have hu : 0 ≤ (stepAmount itype amount s sy st am).1 / entry.nav :=
      div_nonneg hca (le_of_lt hnavpos)
    refine ⟨?_, ?_, hca, ?_⟩
    · simp only []
      rw [addToYear_sum_invested, ← hst.sum_eq]
    · exact addToYear_nonneg _ _ _ hca hu _ hst.entries_nonneg
    · exact addToYear_keys_nodup _ _ _ _ hst.keys_nodup

theorem foldl_simStep_inv (itype : InvestmentType) (amount s : Rat)
    (navData : List Nav) (toTime : Nat → Nat → Int) (sy : Nat)
    (ha : 0 ≤ amount) (hs : 0 ≤ s) (hnav : ∀ e ∈ navData, 0 < e.nav) :
    ∀ (l : List Nat) (st : SimState), SimInv navData st →
      SimInv navData (l.foldl (simStep itype amount s sy navData toTime) st) := by
  intro l
  induction l with
  | nil => intro st h; exact h
  | cons am rest ih =>
    intro st h
    rw [List.foldl_cons]
    exact ih _ (simStep_inv itype amount s navData toTime sy st am ha hs hnav h)

theorem prefixState_siminv (itype : InvestmentType) (amount s : Rat) (startAM : Nat)
    (navData : List Nav) (toTime : Nat → Nat → Int) (am : Nat)
    (ha : 0 ≤ amount) (hs : 0 ≤ s) (hnav : ∀ e ∈ navData, 0 < e.nav) :
    SimInv navData (prefixState itype amount s startAM navData toTime am) := by
  refine foldl_simStep_inv itype amount s navData toTime (startAM / 12) ha hs hnav _ _ ?_
  exact ⟨by simp, by simp, ha, by simp⟩

-- ===== properties of the breakdown-building loop =====

theorem buildRows_sum_invested (navData : List Nav) (toTime : Nat → Nat → Int)
    (currentNav : Rat) (nowYear : Nat) (yd : List (Nat × YearAgg)) :
    ∀ (ys : List Nat) (ci cu : Rat),
      ((buildRows navData toTime currentNav nowYear yd ci cu ys).map YearRow.invested).sum =
        (ys.map (fun y => (lookupYear yd y).invested)).sum := by
  intro ys
  induction ys with
  | nil => intro ci cu; rfl
  | cons yr rest ih =>
    intro ci cu
    simp only [buildRows, List.map_cons, List.sum_cons]
    rw [ih]

theorem buildRows_chain_invested (navData : List Nav) (toTime : Nat → Nat → Int)
    (currentNav : Rat) (nowYear : Nat) (yd : List (Nat × YearAgg))
    (h : ∀ y : Nat, 0 ≤ (lookupYear yd y).invested) :
    ∀ (ys : List Nat) (ci cu : Rat),
      List.Chain' (· ≤ ·)
        ((buildRows navData toTime currentNav nowYear yd ci cu ys).map
          YearRow.cumulativeInvested) := by
  intro ys
  induction ys with
  | nil => intro ci cu; simp [buildRows]
  | cons yr rest ih =>
    intro ci cu
    cases rest with
    | nil => simp [buildRows]
    | cons yr' rest' =>
      simp only [buildRows, List.map_cons]
      rw [List.chain'_cons]
      constructor
      · exact le_add_of_nonneg_right (h yr')
      · exact ih (ci + (lookupYear yd yr).invested) (cu + (lookupYear yd yr).units)

theorem buildRows_chain_units (navData : List Nav) (toTime : Nat → Nat → Int)
    (currentNav : Rat) (nowYear : Nat) (yd : List (Nat × YearAgg))
    (h : ∀ y : Nat, 0 ≤ (lookupYear yd y).units) :
    ∀ (ys : List Nat) (ci cu : Rat),
      List.Chain' (· ≤ ·)
        ((buildRows navData toTime currentNav nowYear yd ci cu ys).map
          YearRow.cumulativeUnits) := by
  intro ys
  induction ys with
  | nil => intro ci cu; simp [buildRows]
  | cons yr rest ih =>
    intro ci cu
    cases rest with
    | nil => simp [buildRows]
    | cons yr' rest' =>
      simp only [buildRows, List.map_cons]
      rw [List.chain'_cons]
      constructor
      · exact le_add_of_nonneg_right (h yr')
      · exact ih (ci + (lookupYear yd yr).invested) (cu + (lookupYear yd yr).units)

theorem scheduleResult_breakdown (itype : InvestmentType) (amount s : Rat)
    (startAM todayAM : Nat) (navData : List Nav) (toTime : Nat → Nat → Int)
    (ha : 0 ≤ amount) (hs : 0 ≤ s) (hnav : ∀ e ∈ navData, 0 < e.nav) :
    (((scheduleResult itype amount s startAM todayAM navData toTime).yearlyBreakdown).map
        YearRow.invested).sum
      = (scheduleResult itype amount s startAM todayAM navData toTime).totalInvested ∧
    List.Chain' (· ≤ ·)
      (((scheduleResult itype amount s startAM todayAM navData toTime).yearlyBreakdown).map
        YearRow.cumulativeInvested) ∧
    List.Chain' (· ≤ ·)
      (((scheduleResult itype amount s startAM todayAM navData toTime).yearlyBreakdown).map
        YearRow.cumulativeUnits) := by
  have hinv : SimInv navData (runSchedule itype amount s startAM todayAM navData toTime) :=
    prefixState_siminv itype amount s startAM navData toTime (todayAM + 1) ha hs hnav
  simp only [scheduleResult]
  refine ⟨?_, ?_, ?_⟩
  · rw [buildRows_sum_invested]
    have hperm :
        (List.insertionSort (· ≤ ·)
            ((runSchedule itype amount s startAM todayAM navData toTime).yearlyData.map
              Prod.fst)).Perm
          ((runSchedule itype amount s startAM todayAM navData toTime).yearlyData.map
            Prod.fst) :=
      List.perm_insertionSort _ _
    rw [(hperm.map (fun y =>
        (lookupYear (runSchedule itype amount s startAM todayAM navData toTime).yearlyData
          y).invested)).sum_eq]
    rw [sum_lookup_invested _ hinv.keys_nodup, ← hinv.sum_eq]
  · exact buildRows_chain_invested _ _ _ _ _
      (fun y => (lookupYear_nonneg _ y hinv.entries_nonneg).1) _ _ _
  · exact buildRows_chain_units _ _ _ _ _
      (fun y => (lookupYear_nonneg _ y hinv.entries_nonneg).2) _ _ _

-- ===== the step-up amount through the loop =====

theorem prefixState_succ (itype : InvestmentType) (amount s : Rat) (startAM : Nat)
    (navData : List Nav) (toTime : Nat → Nat → Int) (am : Nat) (h : startAM ≤ am) :
    prefixState itype amount s startAM navData toTime (am + 1) =
      simStep itype amount s (startAM / 12) navData toTime
        (prefixState itype amount s startAM navData toTime am) am := by
  unfold prefixState
  have h1 : am + 1 - startAM = (am - startAM) + 1 := by omega
  have h2 : List.range' startAM ((am - startAM) + 1) =
      List.range' startAM (am - startAM) ++ [am] := by
    have := @List.range'_concat 1 startAM (am - startAM)
    simpa [show startAM + (am - startAM) = am from by omega] using this
  rw [h1, h2, List.foldl_append]
  rfl

theorem prefixState_stepup_closed (amount s : Rat) (startAM : Nat)
    (navData : List Nav) (toTime : Nat → Nat → Int) :
    ∀ n : Nat,
      (prefixState InvestmentType.stepup amount s startAM navData toTime
          (startAM + n)).currentAmount =
        amount * (1 + s / 100) ^
          (prefixState InvestmentType.stepup amount s startAM navData toTime
            (startAM + n)).yearCounter ∧
      (prefixState InvestmentType.stepup amount s startAM navData toTime
          (startAM + n)).yearCounter = (startAM + n - 1) / 12 - startAM / 12 := by
  intro n
  induction n with
  | zero =>
    constructor
    · simp [prefixState]
    · simp only [prefixState, Nat.add_zero, Nat.sub_self, List.range', List.foldl_nil]
      omega
  | succ n ih =>
    have hsucc : startAM + (n + 1) = (startAM + n) + 1 := by omega
    rw [hsucc, prefixState_succ InvestmentType.stepup amount s startAM navData toTime
      (startAM + n) (by omega)]
    obtain ⟨hca, hyc⟩ := ih
    have hf := simStep_fields InvestmentType.stepup amount s (startAM / 12) navData toTime
      (prefixState InvestmentType.stepup amount s startAM navData toTime (startAM + n))
      (startAM + n)
    rw [hf.1, hf.2]
    unfold stepAmount
    simp only [if_true, reduceIte]
    have hmono : (prefixState InvestmentType.stepup amount s startAM navData toTime
        (startAM + n)).yearCounter ≤ (startAM + n) / 12 - startAM / 12 := by
      rw [hyc]; omega
    by_cases hgt : (startAM + n) / 12 - startAM / 12 >
        (prefixState InvestmentType.stepup amount s startAM navData toTime
          (startAM + n)).yearCounter
    · simp only [hgt, if_true, reduceIte]
      exact ⟨by simp, by omega⟩
    · simp only [hgt, if_false, reduceIte]
      have heq : (prefixState InvestmentType.stepup amount s startAM navData toTime
          (startAM + n)).yearCounter = (startAM + n) / 12 - startAM / 12 :=
        le_antisymm hmono (not_lt.mp hgt)
      exact ⟨hca, by omega⟩

-- ===== closed forms for the projection formulas =====

theorem stepUpMonth_closed (r : Rat) (y : Nat) (ti fv ca : Rat) :
    stepUpMonth r (12 * y + 12) ⟨ti, fv, ca⟩ =
      ⟨ti + 12 * ca,
       fv + ca * (1 + r) ^ (12 * y) *
         ((1 + r) ^ 12 + (1 + r) ^ 11 + (1 + r) ^ 10 + (1 + r) ^ 9 + (1 + r) ^ 8 +
          (1 + r) ^ 7 + (1 + r) ^ 6 + (1 + r) ^ 5 + (1 + r) ^ 4 + (1 + r) ^ 3 +
          (1 + r) ^ 2 + (1 + r)),
       ca⟩ := by
  have hrange : List.range 12 = [0, 1, 2, 3, 4, 5, 6, 7, 8, 9, 10, 11] := rfl
  unfold stepUpMonth
  rw [hrange]
  simp only [List.foldl_cons, List.foldl_nil]
  simp only [show 12 * y + 12 - 0 = 12 * y + 12 from by omega,
    show 12 * y + 12 - 1 = 12 * y + 11 from by omega,
    show 12 * y + 12 - 2 = 12 * y + 10 from by omega,
    show 12 * y + 12 - 3 = 12 * y + 9 from by omega,
    show 12 * y + 12 - 4 = 12 * y + 8 from by omega,
    show 12 * y + 12 - 5 = 12 * y + 7 from by omega,
    show 12 * y + 12 - 6 = 12 * y + 6 from by omega,
    show 12 * y + 12 - 7 = 12 * y + 5 from by omega,
    show 12 * y + 12 - 8 = 12 * y + 4 from by omega,
    show 12 * y + 12 - 9 = 12 * y + 3 from by omega,
    show 12 * y + 12 - 10 = 12 * y + 2 from by omega,
    show 12 * y + 12 - 11 = 12 * y + 1 from by omega, pow_add]
  rw [StepUpSt.mk.injEq]
  refine ⟨by ring, by ring, rfl⟩

theorem stepUpRun_zero_closed (r : Rat) (hr : r ≠ 0) :
    ∀ (years : Nat) (st : StepUpSt),
      (List.range years).foldl (stepUpYear r 0 years) st =
        ⟨st.totalInvested + 12 * (years : Rat) * st.currentAmount,
         st.futureValue + st.currentAmount * (1 + r) * ((1 + r) ^ (12 * years) - 1) / r,
         st.currentAmount⟩ := by
  intro years
  induction years with
  | zero =>
    intro st
    obtain ⟨ti, fv, ca⟩ := st
    simp
  | succ y ih =>
    intro st
    obtain ⟨ti, fv, ca⟩ := st
    rw [List.range_succ_eq_map, List.foldl_cons, List.foldl_map]
    rw [List.foldl_ext _ (stepUpYear r 0 y) _
      (fun s n _ => by
        unfold stepUpYear
        rw [show y + 1 - n.succ = y - n from by omega])]
    have hst1 : stepUpYear r 0 (y + 1) ⟨ti, fv, ca⟩ 0 =
        ⟨ti + 12 * ca,
         fv + ca * (1 + r) ^ (12 * y) *
           ((1 + r) ^ 12 + (1 + r) ^ 11 + (1 + r) ^ 10 + (1 + r) ^ 9 + (1 + r) ^ 8 +
            (1 + r) ^ 7 + (1 + r) ^ 6 + (1 + r) ^ 5 + (1 + r) ^ 4 + (1 + r) ^ 3 +
            (1 + r) ^ 2 + (1 + r)),
         ca⟩ := by
      unfold stepUpYear
      rw [show (y + 1 - 0) * 12 = 12 * y + 12 from by omega, stepUpMonth_closed]
      norm_num
    rw [hst1, ih]
    rw [StepUpSt.mk.injEq]
    refine ⟨?_, ?_, rfl⟩
    · push_cast
      ring
    · rw [show 12 * (y + 1) = 12 * y + 12 from by omega, pow_add]
      field_simp
      ring

-- ===== claim theorems =====

/-- C1: for every non-empty valuation series (exposed ascending-sorted by date,
as the data model prescribes) and every target date, the nearest-date lookup —
both the exhaustive scan of SipCalculator.tsx and the early-exit scan of
App.tsx — returns a record whose absolute date distance to the target is at
most that of every other record of the series, and any other record at the same
distance has a date no earlier than the returned one (ties resolve to the
earlier date). -/
theorem nearest_min_dist_tie_earlier (l : List Nav) (t : Int) (c : Nav)
    (hs : List.Sorted timeLe l) (hc : findNearestNav l t = some c) :
    findNearestNavSorted l t = some c ∧ c ∈ l ∧
      (∀ r ∈ l, |c.time - t| ≤ |r.time - t|) ∧
      (∀ r ∈ l, |r.time - t| = |c.time - t| → c.time ≤ r.time) := by
  have hne : l ≠ [] := by
    intro h
    rw [h] at hc
    exact Option.noConfusion hc
  obtain ⟨c', hc', hmem, hall, htie⟩ := findNearestNav_spec l t hs hne
  obtain rfl : c' = c := Option.some.inj (hc'.symm.trans hc)
  refine ⟨?_, hmem, hall, htie⟩
  unfold findNearestNavSorted
  rw [findNearestNavGo_eq t l hs none]
  exact hc'

theorem nearest_min_dist_tie_earlier_witness :
    findNearestNavSorted [⟨0, 1⟩, ⟨10, 2⟩] 5 = some ⟨0, 1⟩ ∧
      (⟨0, 1⟩ : Nav) ∈ [(⟨0, 1⟩ : Nav), ⟨10, 2⟩] ∧
      (∀ r ∈ [(⟨0, 1⟩ : Nav), ⟨10, 2⟩], |(0 : Int) - 5| ≤ |r.time - 5|) ∧
      (∀ r ∈ [(⟨0, 1⟩ : Nav), ⟨10, 2⟩], |r.time - 5| = |(0 : Int) - 5| → (0 : Int) ≤ r.time) :=
  nearest_min_dist_tie_earlier [⟨0, 1⟩, ⟨10, 2⟩] 5 ⟨0, 1⟩ (by decide) (by decide)

/-- C10: over every record sequence sorted ascending by date, the early-exit
nearest lookup of App.tsx returns exactly what the exhaustive minimum-distance
scan of SipCalculator.tsx returns, for every target date. -/
theorem early_exit_eq_exhaustive (l : List Nav) (t : Int)
    (hs : List.Sorted timeLe l) :
    findNearestNavSorted l t = findNearestNav l t := by
  unfold findNearestNavSorted findNearestNav
  exact findNearestNavGo_eq t l hs none

theorem early_exit_eq_exhaustive_witness :
    findNearestNavSorted [⟨0, 1⟩, ⟨10, 2⟩, ⟨20, 3⟩] 8 =
      findNearestNav [⟨0, 1⟩, ⟨10, 2⟩, ⟨20, 3⟩] 8 :=
  early_exit_eq_exhaustive [⟨0, 1⟩, ⟨10, 2⟩, ⟨20, 3⟩] 8 (by decide)

/-- C4 counterexample: with records supplied oldest-first, the value used as
the current valuation is the first supplied record's value (10), while the
record with the chronologically highest date has value 20 — so the claim's
"regardless of the order in which the raw records were supplied" fails. -/
theorem current_valuation_not_latest_cex :
    currentValuation [⟨0, 10⟩, ⟨100, 20⟩] = 10 ∧
      (⟨100, 20⟩ : Nav) ∈ [(⟨0, 10⟩ : Nav), ⟨100, 20⟩] ∧
      (∀ r ∈ [(⟨0, 10⟩ : Nav), ⟨100, 20⟩], r.time ≤ 100) ∧
      (10 : Rat) ≠ 20 := by
  decide

/-- C4 (amended): the value used as the current valuation is the value of the
FIRST record in supplied order; when the series is supplied newest-first
(sorted descending by date, as the data source provides), this is the value of
a record whose date is maximal in the series. -/
theorem current_valuation_desc_head (navData : List Nav) (e : Nav)
    (hsort : List.Sorted timeGe navData) (hhead : navData.head? = some e) :
    currentValuation navData = e.nav ∧ ∀ r ∈ navData, r.time ≤ e.time := by
  match navData with
  | [] => exact absurd hhead (by simp)
  | a :: l =>
    obtain rfl : a = e := Option.some.inj hhead
    refine ⟨rfl, ?_⟩
    intro r hr
    rcases List.mem_cons.mp hr with h | h
    · subst h; exact le_refl _
    · exact (List.sorted_cons.mp hsort).1 r h

theorem current_valuation_desc_head_witness :
    currentValuation [⟨100, 20⟩, ⟨0, 10⟩] = (20 : Rat) ∧
      ∀ r ∈ [(⟨100, 20⟩ : Nav), ⟨0, 10⟩], r.time ≤ (100 : Int) :=
  current_valuation_desc_head [⟨100, 20⟩, ⟨0, 10⟩] ⟨100, 20⟩ (by decide) rfl

/-- C2 counterexample: with the empty valuation series the schedule-mode
simulation memo returns `none` (its `!navData.length` guard fires), not the
zero-filled success result asserted by the claim. -/
theorem empty_series_schedule_cex :
    pastAnalysisResult InvestmentType.sip 5000 10 24240 24276 [] (fun _ _ => 0) = none := by
  decide

/-- C2 (amended): for every mode, contribution amount, step-up percent and
schedule, simulation over the empty valuation series returns the absent result
`none`; the all-zero success path is unreachable for an empty series because
the memo's input guard returns `null` first. -/
theorem empty_series_schedule_none (itype : InvestmentType) (amount s : Rat)
    (startAM todayAM : Nat) (toTime : Nat → Nat → Int) :
    pastAnalysisResult itype amount s startAM todayAM [] toTime = none := by
  unfold pastAnalysisResult
  rw [if_pos (Or.inr rfl)]

/-- C3: for every purchase date and positive amount, lump-sum historical
simulation against the empty series yields `none` (never a zero-filled
success), and against a non-empty series succeeds with
`totalUnits = amount / purchaseValuation`, the purchase valuation being the
record nearest to the purchase date. -/
theorem lump_sum_empty_none_nonempty_units (amount s : Rat) (startAM todayAM : Nat)
    (navData : List Nav) (toTime : Nat → Nat → Int)
    (hamt : 0 < amount) (hne : navData ≠ []) :
    pastAnalysisResult InvestmentType.onetime amount s startAM todayAM [] toTime = none ∧
      (pastAnalysisResult InvestmentType.onetime amount s startAM todayAM navData
        toTime).isSome = true ∧
      (pastAnalysisResult InvestmentType.onetime amount s startAM todayAM navData
          toTime).map SimResult.totalUnits
        = (findNearestNav navData (toTime startAM 1)).map (fun e => amount / e.nav) := by
  have hempty : pastAnalysisResult InvestmentType.onetime amount s startAM todayAM []
      toTime = none := by
    unfold pastAnalysisResult
    rw [if_pos (Or.inr rfl)]
  have hguard : ¬(amount = 0 ∨ navData = []) := by
    push_neg
    exact ⟨hamt.ne', hne⟩
  obtain ⟨e, he⟩ := findNearestNav_isSome navData (toTime startAM 1) hne
  refine ⟨hempty, ?_, ?_⟩
  · unfold pastAnalysisResult
    rw [if_neg hguard]
    unfold lumpResult
    rw [he]
    rfl
  · unfold pastAnalysisResult
    rw [if_neg hguard]
    unfold lumpResult
    rw [he]
    rfl

theorem lump_sum_empty_none_nonempty_units_witness :
    pastAnalysisResult InvestmentType.onetime 100 0 24240 24241 [] (fun _ _ => 0) = none ∧
      (pastAnalysisResult InvestmentType.onetime 100 0 24240 24241 [⟨0, 20⟩]
        (fun _ _ => 0)).isSome = true ∧
      (pastAnalysisResult InvestmentType.onetime 100 0 24240 24241 [⟨0, 20⟩]
          (fun _ _ => 0)).map SimResult.totalUnits
        = (findNearestNav [⟨0, 20⟩] 0).map (fun e => 100 / e.nav) :=
  lump_sum_empty_none_nonempty_units 100 0 24240 24241 [⟨0, 20⟩] (fun _ _ => 0)
    (by norm_num) (by decide)

/-- Over a descending-sorted list, the last element's date is minimal. -/
theorem sorted_ge_getLast_le :
    ∀ (l : List Nav) (dn : Nav), List.Sorted timeGe l → l.getLast? = some dn →
      ∀ r ∈ l, dn.time ≤ r.time := by
  intro l
  induction l with
  | nil => intro dn _ h; exact absurd h (by simp)
  | cons a tail ih =>
    intro dn hs hl r hr
    cases tail with
    | nil =>
      rw [List.getLast?_singleton] at hl
      obtain rfl : a = dn := Option.some.inj hl
      rcases List.mem_cons.mp hr with h | h
      · subst h; exact le_refl _
      · exact absurd h (List.not_mem_nil r)
    | cons b tl =>
      rw [List.getLast?_cons_cons] at hl
      have hdn : dn ∈ b :: tl := by
        obtain ⟨hne', hx⟩ := List.mem_getLast?_eq_getLast (Option.mem_def.mpr hl)
        exact hx ▸ List.getLast_mem hne'
      rcases List.mem_cons.mp hr with h | h
      · have hle := (List.sorted_cons.mp hs).1 dn hdn
        subst h
        exact hle
      · exact ih dn (List.sorted_cons.mp hs).2 hl r h

/-- C8: `trailingReturn` over `ALL` on the two-record series
{2020-01-01 ↦ 10, 2023-01-01 ↦ 20} (supplied newest-first as the data source
does) yields changePercent 100 and isPositive true; in general, over a
newest-first series the start value is that of the chronologically earliest
record (the last element, whose date is minimal) and
changePercent = (latest − start)/start × 100 with latest the head record,
whose date is maximal. -/
theorem trailing_all_formula (data : List Nav) (d0 dn : Nav)
    (hhead : data.head? = some d0) (hlast : data.getLast? = some dn)
    (hsort : List.Sorted timeGe data) (hpos : 0 < dn.nav) :
    periodReturnAll [⟨19358, 20⟩, ⟨18262, 10⟩] = some ⟨100, true⟩ ∧
      periodReturnAll data =
        some ⟨(d0.nav - dn.nav) / dn.nav * 100,
          decide ((d0.nav - dn.nav) / dn.nav * 100 ≥ 0)⟩ ∧
      (∀ r ∈ data, dn.time ≤ r.time) ∧ (∀ r ∈ data, r.time ≤ d0.time) := by
  refine ⟨by with_unfolding_all rfl, ?_, sorted_ge_getLast_le data dn hsort hlast, ?_⟩
  · match data with
    | [] => exact absurd hhead (by simp)
    | a :: l =>
      obtain rfl : a = d0 := Option.some.inj hhead
      simp only [periodReturnAll, hlast]
      rw [if_pos hpos]
  · match data with
    | [] => exact absurd hhead (by simp)
    | a :: l =>
      obtain rfl : a = d0 := Option.some.inj hhead
      intro r hr
      rcases List.mem_cons.mp hr with h | h
      · subst h; exact le_refl _
      · exact (List.sorted_cons.mp hsort).1 r h

theorem trailing_all_formula_witness :
    periodReturnAll [⟨19358, 20⟩, ⟨18262, 10⟩] = some ⟨100, true⟩ ∧
      periodReturnAll [⟨19358, 20⟩, ⟨18262, 10⟩] =
        some ⟨((20 : Rat) - 10) / 10 * 100, decide (((20 : Rat) - 10) / 10 * 100 ≥ 0)⟩ ∧
      (∀ r ∈ [(⟨19358, 20⟩ : Nav), ⟨18262, 10⟩], (18262 : Int) ≤ r.time) ∧
      (∀ r ∈ [(⟨19358, 20⟩ : Nav), ⟨18262, 10⟩], r.time ≤ (19358 : Int)) :=
  trailing_all_formula [⟨19358, 20⟩, ⟨18262, 10⟩] ⟨19358, 20⟩ ⟨18262, 10⟩
    rfl (by decide) (by decide) (by norm_num)

/-- C9 counterexample: the lump-sum projection at amount 100000, 5 years, 10%
annual return does not yield a future value of (approximately) 161051: the
computed value exceeds 164530, more than 3000 away from the claimed figure. -/
theorem lump_projection_161051_cex :
    (lumpSumProjection 100000 5 10).futureValue ≠ 161051 ∧
      161051 + 3000 < (lumpSumProjection 100000 5 10).futureValue := by
  constructor <;> norm_num [lumpSumProjection]

/-- C9 (amended): the lump-sum projection at amount 100000, 5 years, 10%
returns totalInvested = 100000 and compounds at the MONTHLY rate:
futureValue = 100000 × (1 + 0.10/12)^60 = 100000 × (121/120)^60 ≈ 164530.89
(strictly between 164530 and 164531), not 100000 × 1.10^5 = 161051. -/
theorem lump_projection_monthly_compounding :
    (lumpSumProjection 100000 5 10).totalInvested = 100000 ∧
      (lumpSumProjection 100000 5 10).futureValue = 100000 * (121 / 120 : Rat) ^ 60 ∧
      164530 < (lumpSumProjection 100000 5 10).futureValue ∧
      (lumpSumProjection 100000 5 10).futureValue < 164531 := by
  refine ⟨rfl, ?_, ?_, ?_⟩ <;> norm_num [lumpSumProjection]

/-- C5: the step-up future projection with stepUpPercent = 0 coincides with the
regular (annuity-due) projection on the same amount, years and annual return,
in both totalInvested and futureValue; the annual return is non-zero, matching
the calculator's `!expectedReturn` input guard. -/
theorem stepup_zero_matches_regular (amount : Rat) (years : Nat) (expectedReturn : Rat)
    (h : expectedReturn ≠ 0) :
    (stepUpProjection amount years expectedReturn 0).totalInvested =
        (sipProjection amount years expectedReturn).totalInvested ∧
      (stepUpProjection amount years expectedReturn 0).futureValue =
        (sipProjection amount years expectedReturn).futureValue := by
  have hr : expectedReturn / 100 / 12 ≠ 0 := by
    intro hz
    apply h
    field_simp at hz
    exact hz
  have hclosed := stepUpRun_zero_closed (expectedReturn / 100 / 12) hr years ⟨0, 0, amount⟩
  simp only [stepUpProjection, sipProjection, stepUpRun]
  rw [hclosed]
  constructor
  · push_cast
    ring
  · rw [show years * 12 = 12 * years from Nat.mul_comm years 12]
    field_simp
    ring

theorem stepup_zero_matches_regular_witness :
    (stepUpProjection 5000 2 12 0).totalInvested = (sipProjection 5000 2 12).totalInvested ∧
      (stepUpProjection 5000 2 12 0).futureValue = (sipProjection 5000 2 12).futureValue :=
  stepup_zero_matches_regular 5000 2 12 (by norm_num)

/-- C6: whenever the schedule-mode simulation (`sip` or `stepup`) produces a
result, the invested amounts of its year slices sum to `totalInvested`, and the
`cumulativeInvested` and `cumulativeUnits` columns are non-decreasing across
slices in the (ascending-year) order in which they are built — under a positive
contribution amount, a non-negative step-up percent and positive valuations. -/
theorem schedule_breakdown_invariants (itype : InvestmentType) (amount s : Rat)
    (startAM todayAM : Nat) (navData : List Nav) (toTime : Nat → Nat → Int)
    (res : SimResult) (hty : itype ≠ InvestmentType.onetime)
    (hamt : 0 < amount) (hsu : 0 ≤ s) (hnav : ∀ e ∈ navData, 0 < e.nav)
    (hres : pastAnalysisResult itype amount s startAM todayAM navData toTime = some res) :
    ((res.yearlyBreakdown.map YearRow.invested).sum = res.totalInvested) ∧
      List.Chain' (· ≤ ·) (res.yearlyBreakdown.map YearRow.cumulativeInvested) ∧
      List.Chain' (· ≤ ·) (res.yearlyBreakdown.map YearRow.cumulativeUnits) := by
  unfold pastAnalysisResult at hres
  by_cases hg : amount = 0 ∨ navData = []
  · rw [if_pos hg] at hres
    exact Option.noConfusion hres
  · rw [if_neg hg] at hres
    cases itype with
    | onetime => exact absurd rfl hty
    | sip =>
      obtain rfl : scheduleResult InvestmentType.sip amount s startAM todayAM navData toTime
          = res := Option.some.inj hres
      exact scheduleResult_breakdown InvestmentType.sip amount s startAM todayAM navData
        toTime (le_of_lt hamt) hsu hnav
    | stepup =>
      obtain rfl : scheduleResult InvestmentType.stepup amount s startAM todayAM navData toTime
          = res := Option.some.inj hres
      exact scheduleResult_breakdown InvestmentType.stepup amount s startAM todayAM navData
        toTime (le_of_lt hamt) hsu hnav

theorem schedule_breakdown_invariants_witness :
    (([(⟨2020, 2000, 2000, 200, 200, 2000, 0, 0, 10⟩ : YearRow)].map YearRow.invested).sum
        = (2000 : Rat)) ∧
      List.Chain' (· ≤ ·)
        ([(⟨2020, 2000, 2000, 200, 200, 2000, 0, 0, 10⟩ : YearRow)].map
          YearRow.cumulativeInvested) ∧
      List.Chain' (· ≤ ·)
        ([(⟨2020, 2000, 2000, 200, 200, 2000, 0, 0, 10⟩ : YearRow)].map
          YearRow.cumulativeUnits) :=
  schedule_breakdown_invariants InvestmentType.sip 1000 0 24240 24241 [⟨0, 10⟩]
    (fun _ _ => 0)
    ⟨2000, 2000, 200, 0, 0, true, [⟨2020, 2000, 2000, 200, 200, 2000, 0, 0, 10⟩]⟩
    (by decide) (by norm_num) (le_refl 0)
    (by
      intro e he
      rw [List.mem_singleton] at he
      rw [he]
      norm_num)
    (by with_unfolding_all rfl)

/-- C7: in step-up mode, the contribution amount the simulation loop uses at a
month whose calendar-year offset from the start is k = year(month) − year(start)
equals baseAmount × (1 + stepUpPercent/100)^k, and two months in the same
calendar year use the same amount. -/
theorem stepup_amount_year_offset (amount s : Rat) (startAM am am' : Nat)
    (navData : List Nav) (toTime : Nat → Nat → Int)
    (h : startAM ≤ am) (h' : startAM ≤ am') (hy : am' / 12 = am / 12) :
    amountUsedAt InvestmentType.stepup amount s startAM navData toTime am =
        amount * (1 + s / 100) ^ (am / 12 - startAM / 12) ∧
      amountUsedAt InvestmentType.stepup amount s startAM navData toTime am' =
        amountUsedAt InvestmentType.stepup amount s startAM navData toTime am := by
  have key : ∀ m : Nat, startAM ≤ m →
      amountUsedAt InvestmentType.stepup amount s startAM navData toTime m =
        amount * (1 + s / 100) ^ (m / 12 - startAM / 12) := by
    intro m hm
    unfold amountUsedAt
    obtain ⟨hca, hyc⟩ :=
      prefixState_stepup_closed amount s startAM navData toTime (m - startAM)
    rw [show startAM + (m - startAM) = m from by omega] at hca hyc
    unfold stepAmount
    rw [if_pos rfl]
    by_cases hgt : m / 12 - startAM / 12 >
        (prefixState InvestmentType.stepup amount s startAM navData toTime m).yearCounter
    · simp only [hgt, if_true, reduceIte]
    · simp only [hgt, if_false, reduceIte]
      rw [hca]
      congr 2
      have hle : (prefixState InvestmentType.stepup amount s startAM navData toTime
          m).yearCounter ≤ m / 12 - startAM / 12 := by
        rw [hyc]; omega
      omega
  refine ⟨key am h, ?_⟩
  rw [key am h, key am' h', hy]

theorem stepup_amount_year_offset_witness :
    amountUsedAt InvestmentType.stepup 1000 10 24244 [] (fun _ _ => 0) 24252 =
        1000 * (1 + 10 / 100) ^ (24252 / 12 - 24244 / 12) ∧
      amountUsedAt InvestmentType.stepup 1000 10 24244 [] (fun _ _ => 0) 24253 =
        amountUsedAt InvestmentType.stepup 1000 10 24244 [] (fun _ _ => 0) 24252 :=
  stepup_amount_year_offset 1000 10 24244 24252 24253 [] (fun _ _ => 0)
    (by norm_num) (by norm_num) (by norm_num)
